import Mathlib

/-!
Shallow embedding of `scripts/test-manual.py` (termiHub guided manual test
runner): the verification engine, infrastructure lifecycle, report store,
resume loading, the interactive verdict loop and the main session loop.
Machine-level details that the claims do not touch (wall-clock timestamps,
concrete process handles, stdout text) are abstracted into oracle
parameters; everything else follows the Python control flow line by line.
-/

namespace TermiHub

/-- One automated verification check result: `{"description": ..., "passed": ...}`. -/
structure Check where
  description : String
  passed : Bool
deriving DecidableEq, Repr

/-- Python exceptions the modelled code can raise: `KeyError` from a
required-key lookup `d["k"]`, `ValueError` from `int(...)` on a
non-integer value, `FileNotFoundError` / `json.JSONDecodeError` from
`open` + `json.load`, and `AttributeError` from `.get` on a non-dict. -/
inductive PyErr where
  | keyError (k : String)
  | valueError
  | fileNotFound
  | jsonDecode
  | attributeError
deriving DecidableEq, Repr

/-- The value found under a `"port"` key: a Python int, or some other value
on which `int(...)` raises `ValueError`. -/
inductive PortV where
  | int (n : Int)
  | nonInt (s : String)
deriving DecidableEq, Repr

/-- A Python value that can appear in a test's `verification` field: the
string `"manual"` (or any other string), `None`, or a dict with the keys
the engine reads (`type`, `path`, `jq`, `description`, `name`, `port`,
`automated`, `manual_prompt`); an absent key is `none` (absent `automated`
is the empty list, matching `verification.get("automated", [])`). -/
inductive VVal where
  | str (s : String)
  | nullv
  | vdict (vtype vpath vjq vdescr vname : Option String) (vport : Option PortV)
      (vautomated : List VVal) (vprompt : Option String)

/-- Outcome of `open(path)` + `json.load(f)` on a path:
the file is missing (`FileNotFoundError`), fails to parse
(`json.JSONDecodeError`), or parses as valid JSON. -/
inductive FileRead where
  | missing
  | invalid
  | valid
deriving DecidableEq, Repr

/-- Environment oracle for the verification engine: filesystem, JSON
parsing, availability of the `jq`/`tasklist`/`pgrep` tools and their
answers, the platform, and TCP port reachability. -/
structure VEnv where
  isFile : String → Bool
  readJson : String → FileRead
  jqAvailable : Bool
  jqOk : String → String → Bool
  isWindows : Bool
  tasklistAvailable : Bool
  tasklistFound : String → Bool
  pgrepAvailable : Bool
  pgrepFound : String → Bool
  portOpen : Int → Bool

/-- The `json_check` body: `open` + `json.load` with
`except (json.JSONDecodeError, FileNotFoundError)` producing a failed
check; on valid JSON, gate on `jq` when available and an expression was
given, else degrade to a "JSON valid" pass with an explicit description. -/
def jsonCheckEval (env : VEnv) (path jqExpr desc : String) : List Check :=
  match env.readJson path with
  | .missing => [⟨desc, false⟩]
  | .invalid => [⟨desc, false⟩]
  | .valid =>
    if env.jqAvailable && jqExpr ≠ "" then [⟨desc, env.jqOk jqExpr path⟩]
    else [⟨desc ++ " (jq not available \x2d JSON valid)", true⟩]

/-- The `process_running` body: `tasklist` on Windows and `pgrep`
elsewhere, with `except FileNotFoundError` producing a failed check when
the enumeration tool is absent. -/
def processCheckEval (env : VEnv) (name desc : String) : List Check :=
  if env.isWindows then
    if env.tasklistAvailable then [⟨desc, env.tasklistFound name⟩]
    else [⟨desc, false⟩]
  else
    if env.pgrepAvailable then [⟨desc, env.pgrepFound name⟩]
    else [⟨desc, false⟩]

mutual

/-- `run_verification(verification)` from the source: dispatch on the
`"type"` key (default `""`), producing a list of checks; required-key
lookups `verification["path"]` / `["name"]` / `["port"]` raise `KeyError`
when the key is absent and `int(verification["port"])` raises `ValueError`
on a non-integer port, modelled as `Except.error`. -/
def run_verification (env : VEnv) : VVal → Except PyErr (List Check)
  | .str _ => .ok []
  | .nullv => .ok []
  | .vdict t p jq d n po auto _ =>
    let vtype := t.getD ""
    if vtype = "file_exists" then
      match p with
      | none => .error (.keyError "path")
      | some path =>
        .ok [⟨d.getD ("File " ++ path ++ " exists"), env.isFile path⟩]
    else if vtype = "json_check" then
      match p with
      | none => .error (.keyError "path")
      | some path =>
        let jqExpr := jq.getD ""
        .ok (jsonCheckEval env path jqExpr (d.getD ("JSON check: " ++ jqExpr)))
    else if vtype = "process_running" then
      match n with
      | none => .error (.keyError "name")
      | some name =>
        .ok (processCheckEval env name
          (d.getD ("Process \x27" ++ name ++ "\x27 is running")))
    else if vtype = "port_listening" then
      match po with
      | none => .error (.keyError "port")
      | some (.nonInt _) => .error .valueError
      | some (.int k) =>
        .ok [⟨d.getD ("Port " ++ toString k ++ " is listening"), env.portOpen k⟩]
    else if vtype = "combined" then
      runAutomatedList env auto
    else
      .ok []

/-- The `combined` loop `for auto_check in verification.get("automated", []):
checks.extend(run_verification(auto_check))`; an exception in one entry
propagates out. -/
def runAutomatedList (env : VEnv) : List VVal → Except PyErr (List Check)
  | [] => .ok []
  | v :: rest => do
    let cs ← run_verification env v
    let csRest ← runAutomatedList env rest
    .ok (cs ++ csRest)

end

mutual

/-- Well-formedness of a verification value: every typed check carries the
required keys its evaluator reads (`path`, `name`, an integer `port`), and
recursively for the entries of a `combined` list. -/
def wellFormedV : VVal → Bool
  | .str _ => true
  | .nullv => true
  | .vdict t p _ _ n po auto _ =>
    let vtype := t.getD ""
    if vtype = "file_exists" then p.isSome
    else if vtype = "json_check" then p.isSome
    else if vtype = "process_running" then n.isSome
    else if vtype = "port_listening" then
      (match po with | some (.int _) => true | _ => false)
    else if vtype = "combined" then wellFormedList auto
    else true

/-- Pointwise well-formedness of a list of verification values. -/
def wellFormedList : List VVal → Bool
  | [] => true
  | v :: rest => wellFormedV v && wellFormedList rest

end

/-- An opaque stand-in for the JSON `config` payload of a connection
definition; `emptyDict` is the Python default `{}` used by
`conn_def.get("config", \x7b\x7d)`. -/
inductive Cfg where
  | emptyDict
  | payload (s : String)
deriving DecidableEq, Repr

/-- One entry of a test's `setup` list, decided by which key the dict has:
`create_connection` (with `name`, `type` and optional `config`), `connect`,
a plain info string, or any other dict. -/
inductive SetupStep where
  | info (s : String)
  | connect (target : String)
  | createConnection (name ctype : String) (config : Option Cfg)
  | otherDict
deriving DecidableEq, Repr

/-- A loaded test definition, with the fields the session engine reads:
`id`, `name`, loader-attached `_category`, optional `platforms` list
(absent means `["all"]` via `t.get("platforms", ["all"])`), `setup`
actions, prerequisite flags, and the `verification` value (absent means
the string `"manual"`). -/
structure Test where
  id : String
  name : String
  category : String
  platforms : Option (List String)
  setup : List SetupStep
  prereqDocker : Bool
  prereqSerial : Bool
  verification : VVal

/-- Truthiness of an optional CLI string in Python: `None` and `""` are
falsy (`if category and ...`). -/
def strTruthy : Option String → Bool
  | none => false
  | some s => s ≠ ""

/-- `filter_tests(tests, current_platform, category, test_id)` from the
source: keep a test unless its (defaulted) platform list contains neither
the current platform nor `"all"`, or a truthy category filter mismatches
`_category`, or a truthy id filter mismatches `id`. -/
def filter_tests (tests : List Test) (currentPlatform : String)
    (category testId : Option String) : List Test :=
  tests.filter fun t =>
    let platforms := t.platforms.getD ["all"]
    if ¬ (currentPlatform ∈ platforms ∨ "all" ∈ platforms) then false
    else if strTruthy category && (category.getD "") ≠ t.category then false
    else if strTruthy testId && (testId.getD "") ≠ t.id then false
    else true

/-- A generated connection entry
`{"type": "connection", "name": ..., "config": {"type": ..., "config": ...}}`. -/
structure Conn where
  name : String
  ctype : String
  config : Cfg
deriving DecidableEq, Repr

/-- The inner loop of `generate_connections` over one test's `setup` list:
append an entry per `create_connection` step whose name has not been seen,
threading the `seen_names` set (modelled as a list). -/
def setupConns (seen : List String) : List SetupStep → List Conn × List String
  | [] => ([], seen)
  | .createConnection n ty c :: rest =>
    if n ∈ seen then setupConns seen rest
    else
      let (cs, seen') := setupConns (n :: seen) rest
      (⟨n, ty, c.getD .emptyDict⟩ :: cs, seen')
  | _ :: rest => setupConns seen rest

/-- The outer loop of `generate_connections` over all tests. -/
def testsConns (seen : List String) : List Test → List Conn
  | [] => []
  | t :: rest =>
    let (cs, seen') := setupConns seen t.setup
    cs ++ testsConns seen' rest

/-- The `connections` list built by `Infrastructure.generate_connections`:
all `create_connection` setup entries across the given tests, deduplicated
by name with the first occurrence kept. -/
def generate_connections (tests : List Test) : List Conn :=
  testsConns [] tests

/-- The `store` document written by `generate_connections`: version `"2"`,
one `Manual Test Connections` folder when any connection was generated and
an empty `children` list otherwise. -/
structure ConnStore where
  version : String
  folders : List (String × List Conn)
  agents : List String
deriving DecidableEq, Repr

/-- The top-level document of `generate_connections`. -/
def connStore (tests : List Test) : ConnStore :=
  let connections := generate_connections tests
  { version := "2"
    folders := if connections ≠ [] then [("Manual Test Connections", connections)] else []
    agents := [] }

/-- One entry of a prior report's `results` array, as `load_resume` reads
it: optional `status` (via `r.get("status")`) and optional `id`
(`r["id"]` raises `KeyError` when absent). -/
structure RawResult where
  id : Option String
  status : Option String
deriving DecidableEq, Repr

/-- A parsed report object; `report.get("results", [])` defaults an absent
array to `[]`, so the field is a plain list. -/
structure RawReport where
  results : List RawResult
deriving DecidableEq, Repr

/-- The body of `load_resume` after `json.load`: collect into a set the
ids of result entries whose status is `passed`, `failed` or `skipped`;
reading `r["id"]` of a matching entry without an id raises `KeyError`.
The Python `set` is modelled as a list with membership-guarded insert. -/
def loadResumeGo : List RawResult → List String → Except PyErr (List String)
  | [], acc => .ok acc
  | r :: rest, acc =>
    if (r.status.getD "") ∈ (["passed", "failed", "skipped"] : List String) then
      match r.id with
      | none => .error (.keyError "id")
      | some i => loadResumeGo rest (if i ∈ acc then acc else acc ++ [i])
    else
      loadResumeGo rest acc

/-- `load_resume(resume_path)` on an already-parsed report object. -/
def load_resume (report : RawReport) : Except PyErr (List String) :=
  loadResumeGo report.results []

/-- What the resume file contains, as seen through `open` + `json.load`:
missing (`FileNotFoundError`), unparseable (`json.JSONDecodeError`), valid
JSON whose top level is not an object (so `report.get` raises
`AttributeError`), or a report object. -/
inductive ResumeFile where
  | missing
  | unparseable
  | nonObject
  | object (report : RawReport)

/-- `load_resume` over the file as a whole: the `open`/`json.load` faults
and the `AttributeError` from `report.get` on a non-object document
propagate as errors. -/
def loadResumeFile : ResumeFile → Except PyErr (List String)
  | .missing => .error .fileNotFound
  | .unparseable => .error .jsonDecode
  | .nonObject => .error .attributeError
  | .object report => load_resume report

/-- Whether an exception from `load_resume` is one of the classes caught
in `main`: `except (FileNotFoundError, json.JSONDecodeError, KeyError)`;
any other exception (e.g. `AttributeError`) is not caught. -/
def caughtInMain : PyErr → Bool
  | .keyError _ => true
  | .fileNotFound => true
  | .jsonDecode => true
  | .valueError => false
  | .attributeError => false

/-- The resume block of `main`: `completed_ids = set()` then
`try: completed_ids = load_resume(args.resume) except (FileNotFoundError,
json.JSONDecodeError, KeyError): warn`. An uncaught exception crashes the
program, modelled as `Except.error`. -/
def mainLoadResume (file : ResumeFile) : Except PyErr (List String) :=
  match loadResumeFile file with
  | .ok ids => .ok ids
  | .error e => if caughtInMain e then .ok [] else .error e

/-- The `environment` object of a report, as read back by `save_report`
(`report["environment"]["platform"]`, `["arch"]`). -/
structure ReportEnvMeta where
  platform : String
  arch : String
deriving DecidableEq, Repr

/-- The slice of the report document that `save_report` reads. -/
structure Report where
  environment : ReportEnvMeta
deriving DecidableEq, Repr

/-- `save_report(report, report_dir)` from the source, with the wall clock
passed explicitly: the timestamp `ts` is recomputed from
`datetime.datetime.now(...)` at every call, and the written path is
`report_dir / f"manual-{ts}-{plat}-{arch}.json"`. Returns the path. -/
def save_report (report : Report) (reportDir : String) (ts : String) : String :=
  let plat := report.environment.platform
  let arch := report.environment.arch
  let filename := "manual-" ++ ts ++ "-" ++ plat ++ "-" ++ arch ++ ".json"
  reportDir ++ "/" ++ filename

/-- The mutable fields of an `Infrastructure` instance; process handles
are abstracted to numbers. -/
structure Infra where
  skip_infra : Bool
  keep_infra : Bool
  app_path : Option String
  docker_started : Bool
  socat_proc : Option Nat
  app_proc : Option Nat
  config_dir : Option String
deriving DecidableEq, Repr

/-- Externally observable side effects of the infrastructure operations. -/
inductive InfraAction where
  | dockerComposeUp
  | waitForPort (port : Nat)
  | removePath (p : String)
  | spawnSocat
deriving DecidableEq, Repr

/-- Environment oracle for infrastructure operations: whether the compose
file exists, whether `docker compose up` succeeds, whether `socat` is on
PATH, whether the two pty symlink paths pre-exist, whether `Popen(socat)`
raises `FileNotFoundError`, the handle of the spawned process, and whether
both symlinks appear within the 20-poll window. -/
structure IEnv where
  composeExists : Bool
  dockerUpOk : Bool
  socatOnPath : Bool
  ptyAExists : Bool
  ptyBExists : Bool
  popenRaises : Bool
  socatHandle : Nat
  linksAppear : Bool

/-- `Infrastructure.start_docker` from the source: return `docker_started`
unchanged if `skip_infra` or already started; warn and return `False` if
the compose file is missing; otherwise run `docker compose up`, and on
success mark started, wait for port 2201 and return `True`. The returned
triple is (return value, new state, side effects). -/
def start_docker (s : Infra) (env : IEnv) : Bool × Infra × List InfraAction :=
  if s.skip_infra || s.docker_started then
    (s.docker_started, s, [])
  else if ¬ env.composeExists then
    (false, s, [])
  else if env.dockerUpOk then
    (true, { s with docker_started := true }, [.dockerComposeUp, .waitForPort 2201])
  else
    (false, s, [.dockerComposeUp])

/-- `Infrastructure.start_serial` from the source: return `True`
immediately if a socat process handle is already held; return `False` if
`socat` is not available; otherwise remove stale pty link paths, spawn the
socat bridge (a `FileNotFoundError` from `Popen` yields `False` with no
handle stored), and poll for both links, returning whether they appeared. -/
def start_serial (s : Infra) (env : IEnv) : Bool × Infra × List InfraAction :=
  if s.socat_proc.isSome then
    (true, s, [])
  else if ¬ env.socatOnPath then
    (false, s, [])
  else
    let removals :=
      (if env.ptyAExists then [InfraAction.removePath "/tmp/termihub-serial-a"] else [])
        ++ (if env.ptyBExists then [InfraAction.removePath "/tmp/termihub-serial-b"] else [])
    if env.popenRaises then
      (false, s, removals)
    else
      (env.linksAppear, { s with socat_proc := some env.socatHandle },
        removals ++ [.spawnSocat])

/-- `get_input`: read one (stripped, lowercased) line; on `EOFError` /
`KeyboardInterrupt` it returns `"q"`. The operator's inputs are modelled
as a list of already-normalized strings; an exhausted list is end of
input. -/
def nextInput : List String → String × List String
  | [] => ("q", [])
  | x :: xs => (x, xs)

/-- The terminal statuses `get_test_result` can return. -/
inductive Verdict where
  | passed
  | failed
  | skipped
  | quit
deriving DecidableEq, Repr

/-- `note_text = get_input(...); if note_text: note = note_text`. -/
def noteUpd (t : String) (old : Option String) : Option String :=
  if t ≠ "" then some t else old

/-- `isinstance(verification, dict)` (`has_auto` in the source). -/
def isDict : VVal → Bool
  | .vdict .. => true
  | _ => false

/-- `isinstance(verification, dict) and verification.get("type") == "combined"`. -/
def combinedTag : VVal → Bool
  | .vdict t .. => t = some "combined"
  | _ => false

theorem nextInput_snd_length (l : List String) : (nextInput l).2.length ≤ l.length := by
  cases l <;> simp [nextInput]

/-- Outcome of one confirmation block inside the verdict loop: a final
return value of `get_test_result`, or "fall through, the `while` loop
continues" with the remaining inputs, the accumulated note and the
prompt-shown flag. -/
inductive LoopStep where
  | done (result : Verdict × Option String × Bool)
  | again (inputs : List String) (note : Option String) (shown : Bool)

/-- The `combined` manual-prompt block at the end of the empty-line branch
of `get_test_result`: print the prompt (recorded by the `true` shown
flag), read a confirmation; recognized answers return a verdict, anything
else falls back to the `while` loop. -/
def manualPromptStep (note : Option String) (rest2 : List String) : LoopStep :=
  if (nextInput rest2).1 = "" ∨ (nextInput rest2).1 = "p" then
    .done (.passed, note, true)
  else if (nextInput rest2).1 = "f" then
    .done (.failed, noteUpd (nextInput (nextInput rest2).2).1 note, true)
  else if (nextInput rest2).1 = "s" then .done (.skipped, note, true)
  else if (nextInput rest2).1 = "q" then .done (.quit, note, true)
  else .again (nextInput rest2).2 note true

/-- The confirmation after the automated checks are displayed: when all
checks passed the default is pass (empty answer or `p`), otherwise the
default is fail (empty answer or `f`); every recognized answer returns
immediately, and only an unrecognized answer falls through — into the
manual-prompt block when the verification is `combined`, else back to the
`while` loop. -/
def autoConfirmStep (ver : VVal) (checks : List Check) (rest : List String)
    (note : Option String) (shown : Bool) : LoopStep :=
  if checks.all Check.passed then
    if (nextInput rest).1 = "" ∨ (nextInput rest).1 = "p" then
      .done (.passed, note, shown)
    else if (nextInput rest).1 = "f" then
      .done (.failed, noteUpd (nextInput (nextInput rest).2).1 note, shown)
    else if (nextInput rest).1 = "s" then .done (.skipped, note, shown)
    else if (nextInput rest).1 = "q" then .done (.quit, note, shown)
    else if combinedTag ver then manualPromptStep note (nextInput rest).2
    else .again (nextInput rest).2 note shown
  else
    if (nextInput rest).1 = "p" then .done (.passed, note, shown)
    else if (nextInput rest).1 = "" ∨ (nextInput rest).1 = "f" then
      .done (.failed, noteUpd (nextInput (nextInput rest).2).1 note, shown)
    else if (nextInput rest).1 = "s" then .done (.skipped, note, shown)
    else if (nextInput rest).1 = "q" then .done (.quit, note, shown)
    else if combinedTag ver then manualPromptStep note (nextInput rest).2
    else .again (nextInput rest).2 note shown

theorem manualPromptStep_again_length (note : Option String) (rest2 : List String)
    (i : List String) (n : Option String) (s : Bool)
    (h : manualPromptStep note rest2 = .again i n s) : i.length ≤ rest2.length := by
  unfold manualPromptStep at h
  split_ifs at h <;> first
    | (injection h with h1 h2 h3
       subst h1
       exact nextInput_snd_length rest2)
    | injection h

theorem autoConfirmStep_again_length (ver : VVal) (checks : List Check)
    (rest : List String) (note : Option String) (shown : Bool)
    (i : List String) (n : Option String) (s : Bool)
    (h : autoConfirmStep ver checks rest note shown = .again i n s) :
    i.length ≤ rest.length := by
  unfold autoConfirmStep at h
  have hr2 := nextInput_snd_length rest
  split_ifs at h <;> first
    | (injection h with h1 h2 h3
       subst h1
       exact hr2)
    | injection h
    | exact le_trans (manualPromptStep_again_length _ _ _ _ _ h) hr2

/-- `get_test_result(test)` from the source, over an input script: the
verdict loop reading keys `p`/`f`/`s`/`n`/`q`, and on an empty line with a
dict verification, the automated-checks display (`checks` is the value
`run_verification(verification)` returned), the confirmation whose
recognized answers return immediately, and — only when the confirmation
answer was not recognized — the `combined` manual-prompt confirmation.
Also returns the accumulated note and whether the manual prompt was ever
printed (the `shown` accumulator). -/
def get_test_result (ver : VVal) (checks : List Check) :
    (inputs : List String) → Option String → Bool → Verdict × Option String × Bool
  | [], note, shown => (.quit, note, shown)
  | choice :: rest, note, shown =>
    if choice = "p" then (.passed, note, shown)
    else if choice = "f" then (.failed, noteUpd (nextInput rest).1 note, shown)
    else if choice = "s" then (.skipped, note, shown)
    else if choice = "n" then
      get_test_result ver checks (nextInput rest).2 (noteUpd (nextInput rest).1 note) shown
    else if choice = "q" then (.quit, note, shown)
    else if choice = "" then
      if isDict ver then
        if checks.isEmpty then
          get_test_result ver checks rest note shown
        else
          match hstep : autoConfirmStep ver checks rest note shown with
          | .done r => r
          | .again inputs' note' shown' => get_test_result ver checks inputs' note' shown'
      else
        get_test_result ver checks rest note shown
    else
      get_test_result ver checks rest note shown
termination_by inputs _ _ => inputs.length
decreasing_by
  all_goals simp only [List.length_cons]
  all_goals
    first
    | (have h1 := nextInput_snd_length rest; omega)
    | (have h1 := autoConfirmStep_again_length ver checks rest note shown
         inputs' note' shown' hstep
       omega)
    | omega

theorem manualPromptStep_shown_done (note : Option String) (rest2 : List String)
    (r : Verdict × Option String × Bool)
    (h : manualPromptStep note rest2 = .done r) : r.2.2 = true := by
  unfold manualPromptStep at h
  split_ifs at h <;> (injection h with h1; subst h1; rfl)

theorem manualPromptStep_shown_again (note : Option String) (rest2 : List String)
    (i : List String) (n : Option String) (s : Bool)
    (h : manualPromptStep note rest2 = .again i n s) : s = true := by
  unfold manualPromptStep at h
  split_ifs at h <;> first
    | (injection h with h1 h2 h3; exact h3.symm)
    | injection h

theorem autoConfirmStep_sticky_done (ver : VVal) (checks : List Check)
    (rest : List String) (note : Option String) (r : Verdict × Option String × Bool)
    (h : autoConfirmStep ver checks rest note true = .done r) : r.2.2 = true := by
  unfold autoConfirmStep at h
  split_ifs at h <;> first
    | (injection h with h1; subst h1; rfl)
    | exact manualPromptStep_shown_done _ _ _ h
    | injection h

theorem autoConfirmStep_sticky_again (ver : VVal) (checks : List Check)
    (rest : List String) (note : Option String)
    (i : List String) (n : Option String) (s : Bool)
    (h : autoConfirmStep ver checks rest note true = .again i n s) : s = true := by
  unfold autoConfirmStep at h
  split_ifs at h <;> first
    | (injection h with h1 h2 h3; exact h3.symm)
    | exact manualPromptStep_shown_again _ _ _ _ _ h
    | injection h

/-- Once the manual prompt has been shown, the shown flag of the final
result stays `true` through any further loop iterations. -/
theorem get_test_result_shown_sticky_aux (ver : VVal) (checks : List Check) :
    ∀ (N : Nat) (inputs : List String), inputs.length ≤ N → ∀ note : Option String,
      (get_test_result ver checks inputs note true).2.2 = true := by
  intro N
  induction N with
  | zero =>
    intro inputs hlen note
    have h0 : inputs = [] := List.eq_nil_of_length_eq_zero (Nat.le_zero.mp hlen)
    subst h0
    rw [get_test_result]
  | succ N ih =>
    intro inputs hlen note
    match inputs with
    | [] => rw [get_test_result]
    | choice :: rest =>
      have hrest : rest.length ≤ N := by
        simp only [List.length_cons] at hlen
        omega
      rw [get_test_result]
      split_ifs with h1 h2 h3 h4 h5 h6 h7 h8
      · rfl
      · rfl
      · rfl
      · exact ih _ (le_trans (nextInput_snd_length rest) hrest) _
      · rfl
      · exact ih rest hrest note
      · split
        · rename_i r heq
          exact autoConfirmStep_sticky_done ver checks rest note r heq
        · rename_i ia na sa heq
          have hs := autoConfirmStep_sticky_again ver checks rest note ia na sa heq
          subst hs
          exact ih ia
            (le_trans (autoConfirmStep_again_length ver checks rest note true ia na true heq)
              hrest) na
      · exact ih rest hrest note
      · exact ih rest hrest note

/-- A `combined` verification over one `file_exists` check, with a manual
prompt. -/
def combinedSample : VVal :=
  .vdict (some "combined") none none none none none
    [.vdict (some "file_exists") (some "/tmp/f") none none none none [] none]
    (some "Does the terminal behave as described?")

/-- When the verification is `combined` and the automated-confirmation
answer is none of the recognized keys, control falls through to the
manual-prompt block. -/
theorem autoConfirmStep_combined_unrecognized (ver : VVal)
    (hcomb : combinedTag ver = true) (checks : List Check) (c : String)
    (rest : List String) (note : Option String) (shown : Bool)
    (hc0 : c ≠ "") (hcp : c ≠ "p") (hcf : c ≠ "f") (hcs : c ≠ "s")
    (hcq : c ≠ "q") :
    autoConfirmStep ver checks (c :: rest) note shown =
      manualPromptStep note rest := by
  have hor1 : ¬(c = "" ∨ c = "p") := by tauto
  have hor2 : ¬(c = "" ∨ c = "f") := by tauto
  by_cases hall : checks.all Check.passed
  · simp [autoConfirmStep, nextInput, hall, hor1, hcf, hcs, hcq, hcomb]
  · simp [autoConfirmStep, nextInput, hall, hcp, hor2, hcs, hcq, hcomb]

/-- A recognized automated-confirmation answer returns a verdict directly,
with the shown flag unchanged. -/
theorem autoConfirmStep_recognized_shown (ver : VVal) (checks : List Check)
    (c : String) (rest : List String) (note : Option String) (shown : Bool)
    (hrec : c = "" ∨ c = "p" ∨ c = "f" ∨ c = "s" ∨ c = "q")
    (r : Verdict × Option String × Bool)
    (heq : autoConfirmStep ver checks (c :: rest) note shown = .done r) :
    r.2.2 = shown := by
  unfold autoConfirmStep at heq
  by_cases hall : checks.all Check.passed <;>
    rcases hrec with rfl | rfl | rfl | rfl | rfl <;>
      simp [nextInput, hall] at heq <;>
        (rw [← heq]) <;> rfl

/-- A recognized automated-confirmation answer never falls through to the
loop or the manual prompt. -/
theorem autoConfirmStep_recognized_not_again (ver : VVal) (checks : List Check)
    (c : String) (rest : List String) (note : Option String) (shown : Bool)
    (hrec : c = "" ∨ c = "p" ∨ c = "f" ∨ c = "s" ∨ c = "q")
    (i : List String) (nn : Option String) (ss : Bool)
    (heq : autoConfirmStep ver checks (c :: rest) note shown = .again i nn ss) :
    False := by
  unfold autoConfirmStep at heq
  by_cases hall : checks.all Check.passed <;>
    rcases hrec with rfl | rfl | rfl | rfl | rfl <;>
      simp [nextInput, hall] at heq

/-- C3 as amended: for a `combined` verification with a nonempty automated
check list, after the operator submits an empty line and the checks are
displayed, the answer `c` to the automated confirmation decides the manual
prompt: a recognized answer (empty, `p`, `f`, `s` or `q`) finalizes the
verdict directly and the `manual_prompt` is never presented, while an
unrecognized answer presents the `manual_prompt` as one additional
confirmation. -/
theorem get_test_result_combined_prompt_iff
    (p jq d n : Option String) (po : Option PortV) (auto : List VVal)
    (mp : Option String) (checks : List Check) (hne : checks ≠ [])
    (c : String) (rest : List String) (note : Option String) :
    ((c = "" ∨ c = "p" ∨ c = "f" ∨ c = "s" ∨ c = "q") →
      (get_test_result (.vdict (some "combined") p jq d n po auto mp) checks
        ("" :: c :: rest) note false).2.2 = false) ∧
    (¬(c = "" ∨ c = "p" ∨ c = "f" ∨ c = "s" ∨ c = "q") →
      (get_test_result (.vdict (some "combined") p jq d n po auto mp) checks
        ("" :: c :: rest) note false).2.2 = true) := by
  have hie : checks.isEmpty = false := by
    cases checks with
    | nil => exact absurd rfl hne
    | cons a l => rfl
  constructor
  · intro hrec
    rw [get_test_result]
    simp [isDict, hie]
    split
    · rename_i r heq
      exact autoConfirmStep_recognized_shown _ checks c rest note false hrec r heq
    · rename_i i nn ss heq
      exact absurd heq fun heq =>
        autoConfirmStep_recognized_not_again _ checks c rest note false hrec i nn ss heq
  · intro hnrec
    push_neg at hnrec
    obtain ⟨hc0, hcp, hcf, hcs, hcq⟩ := hnrec
    have hcomb : combinedTag (.vdict (some "combined") p jq d n po auto mp) = true := by
      rfl
    rw [get_test_result]
    simp [isDict, hie]
    split
    · rename_i r heq
      rw [autoConfirmStep_combined_unrecognized _ hcomb checks c rest note false
        hc0 hcp hcf hcs hcq] at heq
      exact manualPromptStep_shown_done _ _ _ heq
    · rename_i i nn ss heq
      rw [autoConfirmStep_combined_unrecognized _ hcomb checks c rest note false
        hc0 hcp hcf hcs hcq] at heq
      have hss := manualPromptStep_shown_again _ _ _ _ _ heq
      subst hss
      exact get_test_result_shown_sticky_aux _ checks i.length i le_rfl nn

/-- Witness for the amended C3: with one passing check and the
unrecognized confirmation answer `"x"`, the manual prompt is presented. -/
theorem get_test_result_combined_prompt_iff_witness :
    (get_test_result (.vdict (some "combined") none none none none none [] none)
      [⟨"chk", true⟩] ["", "x"] none false).2.2 = true :=
  (get_test_result_combined_prompt_iff none none none none none [] none
    [⟨"chk", true⟩] (by decide) "x" [] none).2 (by decide)

/-- What `get_test_result` produced for one presented test, plus the
elapsed `int(time.time() - test_start)`; wall-clock timestamps are not
modelled. -/
structure Outcome where
  status : Verdict
  note : Option String
  duration : Nat
deriving DecidableEq, Repr

/-- The status string written into a result record. -/
def statusStr : Verdict → String
  | .passed => "passed"
  | .failed => "failed"
  | .skipped => "skipped"
  | .quit => "quit"

/-- One entry of the report's `results` array (the `timestamp` field, pure
wall clock, is not modelled). -/
structure TestResult where
  id : String
  name : String
  category : String
  status : String
  duration_seconds : Nat
  note : Option String
  verification_type : String
deriving DecidableEq, Repr

/-- `vtype = "manual"; if isinstance(verification, dict): vtype =
verification.get("type", "automated")`. -/
def vtypeTag (t : Test) : String :=
  match t.verification with
  | .vdict ty .. => ty.getD "automated"
  | _ => "manual"

/-- The result synthesized for a test already completed in a resumed
session. -/
def resumeEntry (t : Test) : TestResult :=
  ⟨t.id, t.name, t.category, "skipped", 0,
    some "Skipped (completed in previous session)", "resumed"⟩

/-- The result recorded for a presented test with a non-quit verdict. -/
def presentEntry (t : Test) (o : Outcome) : TestResult :=
  ⟨t.id, t.name, t.category, statusStr o.status, o.duration, o.note, vtypeTag t⟩

/-- The result recorded for the test during which the operator quit:
`not_run`, with the duration and note accumulated so far, and
`verification_type = str(test.get("verification", "manual"))` (`vstr`
models Python `str`). -/
def quitEntry (vstr : VVal → String) (t : Test) (o : Outcome) : TestResult :=
  ⟨t.id, t.name, t.category, "not_run", o.duration, o.note, vstr t.verification⟩

/-- The result synthesized for a test never reached after a quit:
`not_run` with zero duration and no note. -/
def notRunEntry (vstr : VVal → String) (t : Test) : TestResult :=
  ⟨t.id, t.name, t.category, "not_run", 0, none, vstr t.verification⟩

/-- The main `for i, test in enumerate(filtered, 1)` loop of `main`,
abstracted over an oracle giving each position's `get_test_result` outcome
(only consulted for presented tests): synthesize a `skipped` entry for
resume-completed ids, otherwise record the verdict; on `quit` record the
current test as `not_run` and `break` with the quit flag set. Infra
start-up, card printing and the per-test `save_report` do not touch the
results list and are not modelled here. Positions are 0-based. -/
def runLoop (vstr : VVal → String) (completed : List String)
    (oracle : Nat → Outcome) : List Test → Nat → List TestResult × Bool
  | [], _ => ([], false)
  | t :: rest, i =>
    if t.id ∈ completed then
      (resumeEntry t :: (runLoop vstr completed oracle rest (i + 1)).1,
        (runLoop vstr completed oracle rest (i + 1)).2)
    else
      if (oracle i).status = .quit then ([quitEntry vstr t (oracle i)], true)
      else
        (presentEntry t (oracle i) :: (runLoop vstr completed oracle rest (i + 1)).1,
          (runLoop vstr completed oracle rest (i + 1)).2)

/-- The inner append loop of the quit-fill block: for each remaining test,
append a `not_run` entry unless its id already has a result (the result-id
set is recomputed against the growing list, as in the source). -/
def quitFillGo (vstr : VVal → String) (acc : List TestResult) :
    List Test → List TestResult
  | [] => acc
  | t :: rest =>
    if t.id ∈ acc.map TestResult.id then quitFillGo vstr acc rest
    else quitFillGo vstr (acc ++ [notRunEntry vstr t]) rest

/-- The `if quit_requested:` block of `main`: find `remaining_idx`, the
first position in `filtered` whose id has no result (defaulting to the
list length), then append `not_run` entries for the unresolved tests from
that position on. -/
def applyQuitFill (vstr : VVal → String) (filtered : List Test)
    (results : List TestResult) : List TestResult :=
  quitFillGo vstr results (filtered.drop
    ((filtered.findIdx?
      (fun t => decide (t.id ∉ results.map TestResult.id))).getD filtered.length))

/-- The final results list of a session: run the main loop, then apply the
quit-fill block when the loop ended with a quit. -/
def sessionResults (vstr : VVal → String) (completed : List String)
    (oracle : Nat → Outcome) (filtered : List Test) : List TestResult :=
  if (runLoop vstr completed oracle filtered 0).2 then
    applyQuitFill vstr filtered (runLoop vstr completed oracle filtered 0).1
  else
    (runLoop vstr completed oracle filtered 0).1

/-- Spec-side: map with a 0-based position over a list of tests. -/
def mapIdxFrom (f : Nat → Test → TestResult) : Nat → List Test → List TestResult
  | _, [] => []
  | i, t :: rest => f i t :: mapIdxFrom f (i + 1) rest

/-- Spec-side: the entry the claim expects for a test before the quit
position — the synthesized skipped result for resume-completed ids,
otherwise the chosen verdict. -/
def chooseEntry (completed : List String) (oracle : Nat → Outcome)
    (i : Nat) (t : Test) : TestResult :=
  if t.id ∈ completed then resumeEntry t else presentEntry t (oracle i)

/-- A concrete environment in which every probe answers negatively. -/
def envTrivial : VEnv where
  isFile := fun _ => false
  readJson := fun _ => .missing
  jqAvailable := false
  jqOk := fun _ _ => false
  isWindows := false
  tasklistAvailable := false
  tasklistFound := fun _ => false
  pgrepAvailable := false
  pgrepFound := fun _ => false
  portOpen := fun _ => false

/-- A concrete environment in which every path is a regular file. -/
def envFileYes : VEnv where
  isFile := fun _ => true
  readJson := fun _ => .valid
  jqAvailable := false
  jqOk := fun _ _ => false
  isWindows := false
  tasklistAvailable := false
  tasklistFound := fun _ => false
  pgrepAvailable := false
  pgrepFound := fun _ => false
  portOpen := fun _ => false

/-- C3 counterexample: for `combinedSample`, the automated checks run
(`run_verification` returns one passing check), the operator submits an
empty line and confirms the all-passed prompt with another empty line; the
verdict `passed` is finalized and the `manual_prompt` confirmation is
never presented (final shown flag `false`). -/
theorem get_test_result_combined_skips_prompt :
    run_verification envFileYes combinedSample = .ok [⟨"File /tmp/f exists", true⟩] ∧
    get_test_result combinedSample [⟨"File /tmp/f exists", true⟩] ["", ""] none false =
      (.passed, none, false) := by
  constructor
  · have h1 : envFileYes.isFile "/tmp/f" = true := rfl
    simp [run_verification, runAutomatedList, combinedSample, h1, Bind.bind, Except.bind]
  · rw [get_test_result]
    simp [isDict, combinedSample, autoConfirmStep, nextInput]

/-- A concrete infrastructure environment where nothing is available. -/
def ienvTrivial : IEnv where
  composeExists := false
  dockerUpOk := false
  socatOnPath := false
  ptyAExists := false
  ptyBExists := false
  popenRaises := false
  socatHandle := 0
  linksAppear := false

/-- A concrete infrastructure state whose subsystems are already started. -/
def infraStarted : Infra where
  skip_infra := false
  keep_infra := false
  app_path := none
  docker_started := true
  socat_proc := some 7
  app_proc := none
  config_dir := none

/-- C6: with no category or id filter, `filter_tests` keeps exactly the
tests whose (defaulted) platform list contains the current platform or
`"all"`, as a `List.filter` — so membership is as claimed and the input
order is preserved. -/
theorem filter_tests_platform_only (tests : List Test) (plat : String) :
    filter_tests tests plat none none =
      tests.filter (fun t =>
        decide (plat ∈ t.platforms.getD ["all"]) ||
          decide ("all" ∈ t.platforms.getD ["all"])) := by
  unfold filter_tests
  congr 1
  funext t
  by_cases h1 : plat ∈ t.platforms.getD ["all"] <;>
    by_cases h2 : "all" ∈ t.platforms.getD ["all"] <;>
      simp [h1, h2, strTruthy]

/-- C10: a dict verification whose `type` tag is absent or not one of the
five known tags makes `run_verification` return the empty check list,
exactly like `Manual`. -/
theorem run_verification_unknown_tag (env : VEnv)
    (t p jq d n : Option String) (po : Option PortV) (auto : List VVal)
    (mp : Option String)
    (h : (t.getD "") ∉ (["file_exists", "json_check", "process_running",
      "port_listening", "combined"] : List String)) :
    run_verification env (.vdict t p jq d n po auto mp) = .ok [] := by
  simp only [List.mem_cons, List.not_mem_nil, or_false, not_or] at h
  obtain ⟨h1, h2, h3, h4, h5⟩ := h
  unfold run_verification
  simp [h1, h2, h3, h4, h5]

/-- Witness for C10 at the concrete tag `"frobnicate"`. -/
theorem run_verification_unknown_tag_witness :
    run_verification envTrivial
      (.vdict (some "frobnicate") none none none none none [] none) = .ok [] :=
  run_verification_unknown_tag envTrivial (some "frobnicate") none none none
    none none [] none (by decide)

/-- C9: starting an already-started subsystem is a no-op returning current
status: `start_docker` under `skip_infra` or with `docker_started` returns
the current `docker_started` value with no state change and no side
effect, and `start_serial` with an existing socat handle returns `True`
with no state change and no spawn. -/
theorem infra_start_idempotent (s : Infra) (env : IEnv) :
    ((s.skip_infra || s.docker_started) = true →
      start_docker s env = (s.docker_started, s, [])) ∧
    (s.socat_proc.isSome = true →
      start_serial s env = (true, s, [])) := by
  constructor
  · intro h
    unfold start_docker
    simp [h]
  · intro h
    unfold start_serial
    simp [h]

/-- Witness for C9 at a state with docker started and a live socat handle. -/
theorem infra_start_idempotent_witness :
    start_docker infraStarted ienvTrivial = (true, infraStarted, []) ∧
    start_serial infraStarted ienvTrivial = (true, infraStarted, []) :=
  ⟨(infra_start_idempotent infraStarted ienvTrivial).1 (by decide),
    (infra_start_idempotent infraStarted ienvTrivial).2 (by decide)⟩

/-- C4 counterexample: the dict verification `{"type": "file_exists"}`
(no `"path"` key) is a verification value on which `run_verification`
raises `KeyError` out of the engine instead of reporting a failed check,
in any environment — here the concrete `envTrivial`. -/
theorem run_verification_missing_path_raises :
    run_verification envTrivial
      (.vdict (some "file_exists") none none none none none [] none) =
      .error (.keyError "path") := by
  rfl

mutual

/-- C4 as amended: for a well-formed verification value (every typed check
carries the required keys its evaluator reads, with an integer port),
`run_verification` always returns a check list and never an exception;
the modelled environment faults (missing file, malformed JSON, missing
tool, unreachable port) all surface as check entries. -/
theorem run_verification_wf_ok (env : VEnv) :
    (v : VVal) → wellFormedV v = true → ∃ cs, run_verification env v = .ok cs
  | .str s, _ => ⟨[], rfl⟩
  | .nullv, _ => ⟨[], rfl⟩
  | .vdict t p jq d n po auto mp, h => by
    unfold wellFormedV at h
    unfold run_verification
    by_cases h1 : (t.getD "") = "file_exists"
    · simp only [h1, if_pos, if_true] at h ⊢
      cases p with
      | none => simp at h
      | some path => exact ⟨_, rfl⟩
    · by_cases h2 : (t.getD "") = "json_check"
      · simp only [h1, h2, if_false, if_true, ite_true, ite_false] at h ⊢
        cases p with
        | none => simp at h
        | some path => exact ⟨_, rfl⟩
      · by_cases h3 : (t.getD "") = "process_running"
        · simp only [h1, h2, h3, ite_true, ite_false] at h ⊢
          cases n with
          | none => simp at h
          | some name => exact ⟨_, rfl⟩
        · by_cases h4 : (t.getD "") = "port_listening"
          · simp only [h1, h2, h3, h4, ite_true, ite_false] at h ⊢
            match po with
            | none => simp at h
            | some (.nonInt s) => simp at h
            | some (.int k) => exact ⟨_, rfl⟩
          · by_cases h5 : (t.getD "") = "combined"
            · simp only [h1, h2, h3, h4, h5, ite_true, ite_false] at h ⊢
              exact runAutomatedList_wf_ok env auto h
            · simp only [h1, h2, h3, h4, h5, ite_false]
              exact ⟨[], rfl⟩

/-- Pointwise lift of `run_verification_wf_ok` to a `combined` list. -/
theorem runAutomatedList_wf_ok (env : VEnv) :
    (l : List VVal) → wellFormedList l = true →
      ∃ cs, runAutomatedList env l = .ok cs
  | [], _ => ⟨[], rfl⟩
  | v :: rest, h => by
    unfold wellFormedList at h
    rw [Bool.and_eq_true] at h
    obtain ⟨cs1, hcs1⟩ := run_verification_wf_ok env v h.1
    obtain ⟨cs2, hcs2⟩ := runAutomatedList_wf_ok env rest h.2
    exact ⟨cs1 ++ cs2, by unfold runAutomatedList; rw [hcs1, hcs2]; rfl⟩

end

/-- Witness for the amended C4: a well-formed `combined` verification over
a `file_exists` check evaluates to a check list in `envTrivial`. -/
theorem run_verification_wf_ok_witness :
    wellFormedV (.vdict (some "combined") none none none none none
      [.vdict (some "file_exists") (some "/tmp/f") none none none none [] none]
      (some "prompt")) = true ∧
    ∃ cs, run_verification envTrivial
      (.vdict (some "combined") none none none none none
        [.vdict (some "file_exists") (some "/tmp/f") none none none none [] none]
        (some "prompt")) = .ok cs :=
  ⟨by rfl, run_verification_wf_ok envTrivial _ (by rfl)⟩

/-- Membership in the set `loadResumeGo` accumulates: an id is collected
iff it was already in the accumulator or some remaining entry carries it
with a status in `{passed, failed, skipped}`. -/
theorem loadResumeGo_ok_mem (l : List RawResult) :
    ∀ acc ids, loadResumeGo l acc = .ok ids → ∀ x : String,
      x ∈ ids ↔ (x ∈ acc ∨ ∃ r ∈ l, r.id = some x ∧
        (r.status.getD "") ∈ (["passed", "failed", "skipped"] : List String)) := by
  induction l with
  | nil =>
    intro acc ids h x
    simp only [loadResumeGo, Except.ok.injEq] at h
    subst h
    simp
  | cons r rest ih =>
    intro acc ids h x
    rw [loadResumeGo] at h
    rw [List.exists_mem_cons_iff]
    by_cases hc : (r.status.getD "") ∈ (["passed", "failed", "skipped"] : List String)
    · rw [if_pos hc] at h
      cases hr : r.id with
      | none => rw [hr] at h; exact absurd h (by simp)
      | some i =>
        rw [hr] at h
        rw [ih _ _ h x]
        have hacc : x ∈ (if i ∈ acc then acc else acc ++ [i]) ↔ x ∈ acc ∨ x = i := by
          by_cases hi : i ∈ acc
          · simp only [if_pos hi]
            constructor
            · exact Or.inl
            · rintro (hx | rfl)
              · exact hx
              · exact hi
          · simp [if_neg hi]
        rw [hacc]
        constructor
        · rintro ((hx | rfl) | hx)
          · exact Or.inl hx
          · exact Or.inr (Or.inl ⟨rfl, hc⟩)
          · exact Or.inr (Or.inr hx)
        · rintro (hx | (⟨he, _⟩ | hx))
          · exact Or.inl (Or.inl hx)
          · injection he with he'
            exact Or.inl (Or.inr he'.symm)
          · exact Or.inr hx
    · rw [if_neg hc] at h
      rw [ih _ _ h x]
      constructor
      · rintro (hx | hx)
        · exact Or.inl hx
        · exact Or.inr (Or.inr hx)
      · rintro (hx | (⟨_, hst⟩ | hx))
        · exact Or.inl hx
        · exact absurd hst hc
        · exact Or.inr hx

/-- C2: when `load_resume` returns, the returned set contains exactly the
ids of result entries whose status is one of `passed`, `failed`,
`skipped`; an entry with status `not_run` (or any other status, or no
status) never contributes its id. -/
theorem load_resume_ids (report : RawReport) (ids : List String)
    (h : load_resume report = .ok ids) (x : String) :
    x ∈ ids ↔ ∃ r ∈ report.results, r.id = some x ∧
      (r.status = some "passed" ∨ r.status = some "failed" ∨
        r.status = some "skipped") := by
  rw [loadResumeGo_ok_mem report.results [] ids h x]
  simp only [List.not_mem_nil, false_or]
  refine exists_congr fun r => and_congr_right fun _ => and_congr_right fun _ => ?_
  cases hs : r.status with
  | none => simp
  | some s => simp

/-- A prior report with one `passed` entry and one `not_run` entry. -/
def sampleRawReport : RawReport :=
  ⟨[⟨some "T1", some "passed"⟩, ⟨some "T2", some "not_run"⟩]⟩

/-- Witness for C2: on `sampleRawReport`, `load_resume` returns `{"T1"}`
and the characterization holds at `"T1"`. -/
theorem load_resume_ids_witness :
    load_resume sampleRawReport = .ok ["T1"] ∧
    ("T1" ∈ (["T1"] : List String) ↔ ∃ r ∈ sampleRawReport.results,
      r.id = some "T1" ∧ (r.status = some "passed" ∨ r.status = some "failed" ∨
        r.status = some "skipped")) :=
  ⟨rfl, load_resume_ids sampleRawReport ["T1"] rfl "T1"⟩

/-- C8 counterexample: a resume file that is syntactically valid JSON but
whose top level is not an object (e.g. the document `[]`) makes
`report.get("results", [])` raise `AttributeError`, which is not among the
classes caught in `main` — the program crashes instead of starting with an
empty completed set. -/
theorem mainLoadResume_nonObject_crashes :
    mainLoadResume ResumeFile.nonObject = .error PyErr.attributeError := by
  rfl

/-- The only exception `load_resume` itself raises is the `KeyError` from
`r["id"]` on a matching entry without an id. -/
theorem loadResumeGo_error_keyError (l : List RawResult) :
    ∀ acc e, loadResumeGo l acc = .error e → e = .keyError "id" := by
  induction l with
  | nil => intro acc e h; simp [loadResumeGo] at h
  | cons r rest ih =>
    intro acc e h
    rw [loadResumeGo] at h
    by_cases hc : (r.status.getD "") ∈ (["passed", "failed", "skipped"] : List String)
    · rw [if_pos hc] at h
      cases hr : r.id with
      | none =>
        rw [hr] at h
        exact (Except.error.injEq _ _ ▸ h).symm
      | some i => rw [hr] at h; exact ih _ _ h
    · rw [if_neg hc] at h
      exact ih _ _ h

/-- C8 as amended: when loading the resume file raises one of the classes
`main` catches — `FileNotFoundError` (missing file), `JSONDecodeError`
(invalid JSON), or `KeyError` (a matching result entry without an `id`
field) — the session starts with an empty completed-id set after a
non-fatal warning; only the uncaught `AttributeError` of a valid-JSON
non-object document escapes. -/
theorem mainLoadResume_recovers (file : ResumeFile) (e : PyErr)
    (herr : loadResumeFile file = .error e) (hne : e ≠ PyErr.attributeError) :
    mainLoadResume file = .ok [] := by
  have hcaught : caughtInMain e = true := by
    cases file with
    | missing =>
      simp only [loadResumeFile, Except.error.injEq] at herr
      subst herr; rfl
    | unparseable =>
      simp only [loadResumeFile, Except.error.injEq] at herr
      subst herr; rfl
    | nonObject =>
      simp only [loadResumeFile, Except.error.injEq] at herr
      exact absurd herr.symm hne
    | object rep =>
      have : e = .keyError "id" :=
        loadResumeGo_error_keyError rep.results [] e herr
      subst this; rfl
  unfold mainLoadResume
  rw [herr]
  simp [hcaught]

/-- Witness for the amended C8 at a missing resume file. -/
theorem mainLoadResume_recovers_witness :
    mainLoadResume ResumeFile.missing = .ok [] :=
  mainLoadResume_recovers .missing .fileNotFound rfl (by decide)

/-- A fixed report environment: linux on x86_64. -/
def sampleReport : Report := ⟨⟨"linux", "x86_64"⟩⟩

/-- C7 counterexample: two `save_report` calls one second apart within the
same session write different filenames — the filename is recomputed from
the current timestamp at every call, not fixed from the first save. -/
theorem save_report_new_file_per_timestamp :
    save_report sampleReport "reports" "2025-01-01T000000" ≠
      save_report sampleReport "reports" "2025-01-01T000001" := by
  decide

/-- The `create_connection` definitions found in one `setup` list, in
order: `(name, type, optional config)` triples. -/
def stepOccs (steps : List SetupStep) : List (String × String × Option Cfg) :=
  steps.filterMap fun s =>
    match s with
    | .createConnection n ty c => some (n, ty, c)
    | _ => none

/-- All `create_connection` definitions across all tests, in iteration
order of the nested loops of `generate_connections`. -/
def connOccs (tests : List Test) : List (String × String × Option Cfg) :=
  tests.flatMap fun t => stepOccs t.setup

/-- Flat-list version of the dedup-by-`seen_names` loop of
`generate_connections`. -/
def dedupGo (seen : List String) : List (String × String × Option Cfg) → List Conn
  | [] => []
  | o :: rest =>
    if o.1 ∈ seen then dedupGo seen rest
    else ⟨o.1, o.2.1, o.2.2.getD .emptyDict⟩ :: dedupGo (o.1 :: seen) rest

/-- The `seen_names` set after processing a flat occurrence list. -/
def seenOut (seen : List String) : List (String × String × Option Cfg) → List String
  | [] => seen
  | o :: rest =>
    if o.1 ∈ seen then seenOut seen rest else seenOut (o.1 :: seen) rest

/-- Spec-side definition, from the spec's words: keep the first occurrence
of each connection name, dropping all later occurrences of that name. -/
def specFirstOccurrences : List (String × String × Option Cfg) → List Conn
  | [] => []
  | o :: rest =>
    ⟨o.1, o.2.1, o.2.2.getD .emptyDict⟩ ::
      specFirstOccurrences (rest.filter fun o' => decide (o'.1 ≠ o.1))
termination_by l => l.length
decreasing_by
  simp only [List.length_cons]
  exact Nat.lt_succ_of_le (List.length_filter_le _ _)

/-- The nested `setup` loop agrees with the flat dedup loop on the
flattened occurrences. -/
theorem setupConns_eq_dedupGo (steps : List SetupStep) :
    ∀ seen, setupConns seen steps =
      (dedupGo seen (stepOccs steps), seenOut seen (stepOccs steps)) := by
  induction steps with
  | nil => intro seen; rfl
  | cons s rest ih =>
    intro seen
    cases s with
    | createConnection n ty c =>
      by_cases hn : n ∈ seen
      · simp only [setupConns, stepOccs, List.filterMap_cons, dedupGo, seenOut,
          if_pos hn]
        exact ih seen
      · simp only [setupConns, stepOccs, List.filterMap_cons, dedupGo, seenOut,
          if_neg hn]
        rw [ih (n :: seen)]
        rfl
    | info s => simpa only [setupConns, stepOccs, List.filterMap_cons] using ih _
    | connect t => simpa only [setupConns, stepOccs, List.filterMap_cons] using ih _
    | otherDict => simpa only [setupConns, stepOccs, List.filterMap_cons] using ih _

/-- The flat dedup loop splits over list append, threading the seen set. -/
theorem dedupGo_append (xs ys : List (String × String × Option Cfg)) :
    ∀ seen, dedupGo seen (xs ++ ys) =
      dedupGo seen xs ++ dedupGo (seenOut seen xs) ys := by
  induction xs with
  | nil => intro seen; rfl
  | cons o rest ih =>
    intro seen
    by_cases hn : o.1 ∈ seen
    · simp only [List.cons_append, dedupGo, seenOut, if_pos hn]
      exact ih seen
    · simp only [List.cons_append, dedupGo, seenOut, if_neg hn, List.cons_append]
      exact congrArg _ (ih (o.1 :: seen))

/-- The nested tests loop agrees with the flat dedup loop on the full
flattened occurrence list. -/
theorem testsConns_eq_dedupGo (tests : List Test) :
    ∀ seen, testsConns seen tests = dedupGo seen (connOccs tests) := by
  induction tests with
  | nil => intro seen; rfl
  | cons t rest ih =>
    intro seen
    simp only [testsConns, connOccs, List.flatMap_cons]
    rw [setupConns_eq_dedupGo t.setup seen]
    rw [dedupGo_append, ih]
    rfl

/-- The dedup loop with a seen set equals first-occurrence collapse of the
sublist of names not yet seen. -/
theorem dedupGo_eq_specFirstOccurrences
    (occs : List (String × String × Option Cfg)) :
    ∀ seen, dedupGo seen occs =
      specFirstOccurrences (occs.filter fun o => decide (o.1 ∉ seen)) := by
  induction occs with
  | nil =>
    intro seen
    rw [List.filter_nil, dedupGo, specFirstOccurrences]
  | cons o rest ih =>
    intro seen
    by_cases hn : o.1 ∈ seen
    · have hf : List.filter (fun o' => decide (o'.1 ∉ seen)) (o :: rest) =
          List.filter (fun o' => decide (o'.1 ∉ seen)) rest := by
        simp [List.filter_cons, hn]
      rw [dedupGo, if_pos hn, hf]
      exact ih seen
    · have hf : List.filter (fun o' => decide (o'.1 ∉ seen)) (o :: rest) =
          o :: List.filter (fun o' => decide (o'.1 ∉ seen)) rest := by
        simp [List.filter_cons, hn]
      rw [dedupGo, if_neg hn, hf, specFirstOccurrences, List.filter_filter]
      rw [ih (o.1 :: seen)]
      congr 1
      apply congrArg specFirstOccurrences
      apply List.filter_congr
      intro o' _
      by_cases h1 : o'.1 = o.1
      · simp [h1]
      · by_cases h2 : o'.1 ∈ seen <;> simp [h1, h2]

/-- Every entry produced by the first-occurrence collapse takes its name
from some occurrence of the input. -/
theorem specFirstOccurrences_name_mem
    (occs : List (String × String × Option Cfg)) :
    ∀ c ∈ specFirstOccurrences occs, ∃ o ∈ occs, c.name = o.1 := by
  induction occs using specFirstOccurrences.induct with
  | case1 => intro c hc; exact absurd hc (by simp [specFirstOccurrences])
  | case2 o rest ih =>
    intro c hc
    rw [specFirstOccurrences] at hc
    rcases List.mem_cons.mp hc with rfl | hm
    · exact ⟨o, List.mem_cons_self o rest, rfl⟩
    · obtain ⟨o', ho', hname⟩ := ih c hm
      exact ⟨o', List.mem_cons_of_mem o (List.mem_of_mem_filter ho'), hname⟩

/-- The first-occurrence collapse produces pairwise-distinct names. -/
theorem specFirstOccurrences_nodup
    (occs : List (String × String × Option Cfg)) :
    ((specFirstOccurrences occs).map Conn.name).Nodup := by
  induction occs using specFirstOccurrences.induct with
  | case1 => simp [specFirstOccurrences]
  | case2 o rest ih =>
    rw [specFirstOccurrences, List.map_cons, List.nodup_cons]
    refine ⟨?_, ih⟩
    intro hmem
    obtain ⟨c, hc, hname⟩ := List.mem_map.mp hmem
    obtain ⟨o', ho', hname'⟩ := specFirstOccurrences_name_mem _ c hc
    have := List.of_mem_filter ho'
    rw [← hname', hname] at this
    simp at this

/-- C5: the connections list built by `generate_connections` is exactly
the first-occurrence collapse of all `create_connection` setup entries in
iteration order — so there is at most one entry per connection name, and
the kept entry carries the type and config of the first occurrence of
that name. -/
theorem generate_connections_first_occurrence (tests : List Test) :
    generate_connections tests = specFirstOccurrences (connOccs tests) ∧
    ((generate_connections tests).map Conn.name).Nodup := by
  have h1 : generate_connections tests = dedupGo [] (connOccs tests) :=
    testsConns_eq_dedupGo tests []
  have h2 : dedupGo [] (connOccs tests) =
      specFirstOccurrences ((connOccs tests).filter fun o =>
        decide (o.1 ∉ ([] : List String))) :=
    dedupGo_eq_specFirstOccurrences (connOccs tests) []
  have h3 : ((connOccs tests).filter fun o =>
      decide (o.1 ∉ ([] : List String))) = connOccs tests := by
    apply List.filter_eq_self.mpr
    intro o _
    simp
  rw [h3] at h2
  refine ⟨h1.trans h2, ?_⟩
  rw [h1, h2]
  exact specFirstOccurrences_nodup (connOccs tests)

/-- C7 as amended: within a session (fixed report environment and report
directory), two `save_report` calls write the same path iff they observe
the same UTC timestamp `strftime("%Y-%m-%dT%H%M%S")`; each per-test save
at a later second creates a new file rather than overwriting the first. -/
theorem save_report_path_eq_iff (r : Report) (dir t1 t2 : String) :
    save_report r dir t1 = save_report r dir t2 ↔ t1 = t2 := by
  constructor
  · intro h
    unfold save_report at h
    have hd := congrArg String.data h
    simp only [String.data_append, List.append_assoc] at hd
    have h1 := List.append_cancel_left hd
    have h2 := List.append_cancel_left h1
    have h3 := List.append_cancel_left h2
    have h4 := List.append_cancel_right h3
    exact String.ext h4
  · intro h
    rw [h]

theorem chooseEntry_id (completed : List String) (oracle : Nat → Outcome)
    (i : Nat) (t : Test) : (chooseEntry completed oracle i t).id = t.id := by
  unfold chooseEntry
  by_cases h : t.id ∈ completed <;> simp [h, resumeEntry, presentEntry]

theorem mapIdxFrom_id (completed : List String) (oracle : Nat → Outcome) :
    ∀ (l : List Test) (i0 : Nat),
      (mapIdxFrom (chooseEntry completed oracle) i0 l).map TestResult.id =
        l.map Test.id := by
  intro l
  induction l with
  | nil => intro i0; rfl
  | cons t rest ih =>
    intro i0
    simp only [mapIdxFrom, List.map_cons, chooseEntry_id, ih]

/-- If the operator quits at relative position `j` of the remaining list
(every earlier presented test got a non-quit verdict), the loop records
the resume/verdict entries for the prefix, the `not_run` entry for the
quit test, and stops with the quit flag set. -/
theorem runLoop_quit_at (vstr : VVal → String) (completed : List String)
    (oracle : Nat → Outcome) :
    ∀ (l : List Test) (j i0 : Nat) (hj : j < l.length),
      (l.get ⟨j, hj⟩).id ∉ completed →
      (oracle (i0 + j)).status = .quit →
      (∀ i (hi : i < j), (l.get ⟨i, lt_trans hi hj⟩).id ∉ completed →
        (oracle (i0 + i)).status ≠ .quit) →
      runLoop vstr completed oracle l i0 =
        (mapIdxFrom (chooseEntry completed oracle) i0 (l.take j)
          ++ [quitEntry vstr (l.get ⟨j, hj⟩) (oracle (i0 + j))], true) := by
  intro l
  induction l with
  | nil => intro j i0 hj; exact absurd hj (by simp)
  | cons t rest ih =>
    intro j i0 hj hpres hquit hbefore
    cases j with
    | zero =>
      have hq : (oracle i0).status = .quit := by simpa using hquit
      have hnc : t.id ∉ completed := hpres
      rw [runLoop, if_neg hnc, if_pos hq]
      simp [mapIdxFrom]
    | succ jj =>
      have hj' : jj < rest.length := by
        simp only [List.length_cons] at hj
        omega
      have hpres' : (rest.get ⟨jj, hj'⟩).id ∉ completed := hpres
      have hquit' : (oracle (i0 + 1 + jj)).status = .quit := by
        rw [show i0 + 1 + jj = i0 + (jj + 1) by omega]
        exact hquit
      have hbefore' : ∀ i (hi : i < jj),
          (rest.get ⟨i, lt_trans hi hj'⟩).id ∉ completed →
          (oracle (i0 + 1 + i)).status ≠ .quit := by
        intro i hi hni
        have h2 : i + 1 < jj + 1 := Nat.succ_lt_succ hi
        have h3 := hbefore (i + 1) h2 hni
        rw [show i0 + (i + 1) = i0 + 1 + i by omega] at h3
        exact h3
      have hrec := ih jj (i0 + 1) hj' hpres' hquit' hbefore'
      by_cases hc : t.id ∈ completed
      · rw [runLoop, if_pos hc, hrec]
        simp only [List.take_succ_cons, mapIdxFrom, List.cons_append,
          Prod.mk.injEq, and_true]
        rw [show i0 + (jj + 1) = i0 + 1 + jj by omega]
        rw [show chooseEntry completed oracle i0 t = resumeEntry t from by
          simp [chooseEntry, hc]]
        rfl
      · have hne : (oracle i0).status ≠ .quit := by
          have h3 := hbefore 0 (Nat.succ_pos jj) hc
          simpa using h3
        rw [runLoop, if_neg hc, if_neg hne, hrec]
        simp only [List.take_succ_cons, mapIdxFrom, List.cons_append,
          Prod.mk.injEq, and_true]
        rw [show i0 + (jj + 1) = i0 + 1 + jj by omega]
        rw [show chooseEntry completed oracle i0 t = presentEntry t (oracle i0) from by
          simp [chooseEntry, hc]]
        rfl

/-- `findIdx?` with a start index: if the predicate is false strictly
before position `m` and true at `m` (when `m` is in range), the search
finds `s + m`, with the default `s + length` when `m` is the length. -/
theorem findIdx?_start_spec (p : Test → Bool) :
    ∀ (l : List Test) (m s : Nat), m ≤ l.length →
      (∀ i (hi : i < l.length), i < m → p (l.get ⟨i, hi⟩) = false) →
      (∀ (hm : m < l.length), p (l.get ⟨m, hm⟩) = true) →
      (List.findIdx? p l s).getD (s + l.length) = s + m := by
  intro l
  induction l with
  | nil =>
    intro m s hm _ _
    have : m = 0 := Nat.le_zero.mp hm
    subst this
    rfl
  | cons a l ih =>
    intro m s hm hbef hat
    cases m with
    | zero =>
      have hpa : p a = true := hat (Nat.succ_pos l.length)
      rw [List.findIdx?, if_pos hpa]
      rfl
    | succ mm =>
      have hpa : p a = false := hbef 0 (Nat.succ_pos l.length) (Nat.succ_pos mm)
      rw [List.findIdx?, if_neg (by simp [hpa])]
      have hmm : mm ≤ l.length := by
        simp only [List.length_cons] at hm
        omega
      have hbef' : ∀ i (hi : i < l.length), i < mm → p (l.get ⟨i, hi⟩) = false := by
        intro i hi him
        exact hbef (i + 1) (by simpa using Nat.succ_lt_succ hi) (Nat.succ_lt_succ him)
      have hat' : ∀ (hm2 : mm < l.length), p (l.get ⟨mm, hm2⟩) = true := by
        intro hm2
        exact hat (by simpa using Nat.succ_lt_succ hm2)
      have := ih mm (s + 1) hmm hbef' hat'
      cases hf : List.findIdx? p l (s + 1) with
      | none =>
        rw [hf] at this
        simp only [Option.getD_none] at this ⊢
        simp only [List.length_cons]
        omega
      | some k =>
        rw [hf] at this
        simp only [Option.getD_some] at this ⊢
        omega

/-- The append loop of the quit-fill block, when every remaining test has
a fresh id: it appends one `not_run` entry per test, in order. -/
theorem quitFillGo_all_new (vstr : VVal → String) :
    ∀ (l : List Test) (acc : List TestResult),
      (∀ t ∈ l, t.id ∉ acc.map TestResult.id) →
      (l.map Test.id).Nodup →
      quitFillGo vstr acc l = acc ++ l.map (notRunEntry vstr) := by
  intro l
  induction l with
  | nil => intro acc _ _; simp [quitFillGo]
  | cons t rest ih =>
    intro acc hnew hnd
    have ht : t.id ∉ acc.map TestResult.id := hnew t (List.mem_cons_self t rest)
    rw [quitFillGo, if_neg ht]
    simp only [List.map_cons, List.nodup_cons] at hnd
    have hnew' : ∀ t' ∈ rest, t'.id ∉ (acc ++ [notRunEntry vstr t]).map TestResult.id := by
      intro t' ht'
      simp only [List.map_append, List.map_cons, List.map_nil, List.mem_append,
        List.mem_singleton, not_or]
      refine ⟨hnew t' (List.mem_cons_of_mem t ht'), ?_⟩
      intro hcontra
      have : t'.id ∈ rest.map Test.id := List.mem_map_of_mem Test.id ht'
      have hid : (notRunEntry vstr t).id = t.id := rfl
      rw [hid] at hcontra
      rw [hcontra] at this
      exact hnd.1 this
    rw [ih (acc ++ [notRunEntry vstr t]) hnew' hnd.2]
    simp

/-- C1: if the operator issues quit while test `j` (0-based; `k = j + 1`
1-based) of the filtered list is being resolved — every earlier presented
test got a non-quit verdict, test `j` is presented (not resume-completed)
and its verdict collection returns quit — then, given the data-model
invariant that test ids are unique, the final results list is: for each
test before `j`, in catalog order, its chosen verdict or the synthesized
resume-skipped entry; the `not_run` entry for test `j` (with its
accumulated note and elapsed duration); and a `not_run` entry with zero
duration and `None` note for every test after `j`, in catalog order. -/
theorem sessionResults_quit (vstr : VVal → String) (completed : List String)
    (oracle : Nat → Outcome) (filtered : List Test) (j : Nat)
    (hj : j < filtered.length)
    (hids : (filtered.map Test.id).Nodup)
    (hpres : (filtered.get ⟨j, hj⟩).id ∉ completed)
    (hquit : (oracle j).status = .quit)
    (hbefore : ∀ i (hi : i < j), (filtered.get ⟨i, lt_trans hi hj⟩).id ∉ completed →
      (oracle i).status ≠ .quit) :
    sessionResults vstr completed oracle filtered =
      mapIdxFrom (chooseEntry completed oracle) 0 (filtered.take j)
        ++ quitEntry vstr (filtered.get ⟨j, hj⟩) (oracle j)
          :: (filtered.drop (j + 1)).map (notRunEntry vstr) := by
  have hquit0 : (oracle (0 + j)).status = .quit := by simpa using hquit
  have hbefore0 : ∀ i (hi : i < j), (filtered.get ⟨i, lt_trans hi hj⟩).id ∉ completed →
      (oracle (0 + i)).status ≠ .quit := by
    intro i hi hni
    simpa using hbefore i hi hni
  have hrl := runLoop_quit_at vstr completed oracle filtered j 0 hj hpres hquit0 hbefore0
  have hq0 : (oracle (0 + j)) = oracle j := by simp
  unfold sessionResults
  rw [hrl]
  simp only [if_true]
  -- the result-id list of the loop output is the ids of the first j+1 tests
  have hids_rs : (mapIdxFrom (chooseEntry completed oracle) 0 (filtered.take j)
      ++ [quitEntry vstr (filtered.get ⟨j, hj⟩) (oracle (0 + j))]).map TestResult.id =
      (filtered.take (j + 1)).map Test.id := by
    have hlen : j < (List.map Test.id filtered).length := by simpa using hj
    rw [List.map_append, mapIdxFrom_id]
    simp only [List.map_take]
    rw [List.take_succ, List.getElem?_eq_getElem hlen]
    simp [List.get_eq_getElem, quitEntry]
  set rs := mapIdxFrom (chooseEntry completed oracle) 0 (filtered.take j)
      ++ [quitEntry vstr (filtered.get ⟨j, hj⟩) (oracle (0 + j))] with hrs
  unfold applyQuitFill
  -- split the id list of the catalog around position j+1
  have hsplit : filtered.map Test.id =
      (filtered.take (j + 1)).map Test.id ++ (filtered.drop (j + 1)).map Test.id := by
    rw [← List.map_append, List.take_append_drop]
  have hnd2 := hsplit ▸ hids
  rw [List.nodup_append] at hnd2
  obtain ⟨hndT, hndD, hdisj⟩ := hnd2
  -- remaining_idx lands exactly at position j+1
  have hridx : (List.findIdx? (fun t => decide (t.id ∉ rs.map TestResult.id)) filtered).getD
      filtered.length = j + 1 := by
    have hspec := findIdx?_start_spec (fun t => decide (t.id ∉ rs.map TestResult.id))
      filtered (j + 1) 0 hj ?hbef ?hat
    · simpa using hspec
    case hbef =>
      intro i hi him
      simp only [decide_eq_false_iff_not, not_not]
      rw [hids_rs]
      have hmem : filtered.get ⟨i, hi⟩ ∈ filtered.take (j + 1) := by
        rw [List.mem_iff_getElem]
        refine ⟨i, ?_, ?_⟩
        · simp [List.length_take]
          omega
        · rw [List.getElem_take]
          rfl
      exact List.mem_map_of_mem Test.id hmem
    case hat =>
      intro hm
      simp only [decide_eq_true_eq]
      rw [hids_rs]
      intro hcontra
      have hmemD : (filtered.get ⟨j + 1, hm⟩).id ∈ (filtered.drop (j + 1)).map Test.id := by
        have hd : j + 1 + 0 < filtered.length := by omega
        have : filtered.get ⟨j + 1, hm⟩ ∈ filtered.drop (j + 1) := by
          rw [List.mem_iff_getElem]
          refine ⟨0, ?_, ?_⟩
          · simp [List.length_drop]
            omega
          · rw [List.getElem_drop]
            simp [List.get_eq_getElem]
        exact List.mem_map_of_mem Test.id this
      exact hdisj hcontra hmemD
  rw [hridx]
  -- every dropped test has a fresh id, so the fill appends them all
  have hfill := quitFillGo_all_new vstr (filtered.drop (j + 1)) rs ?hfresh hndD
  · rw [hfill, hrs]
    simp [hq0, List.get_eq_getElem]
  case hfresh =>
    intro t htmem
    rw [hids_rs]
    intro hcontra
    exact hdisj hcontra (List.mem_map_of_mem Test.id htmem)

/-- A minimal manual test with the given id. -/
def tTest (i : String) : Test :=
  ⟨i, "name " ++ i, "cat", none, [], false, false, .str "manual"⟩

/-- Witness for C1: quitting while the first of three tests is being
resolved yields its `not_run` entry (with the accumulated note and
duration) followed by zero-duration, note-less `not_run` entries for the
two remaining tests, in catalog order. -/
theorem sessionResults_quit_witness :
    sessionResults (fun _ => "manual") [] (fun _ => ⟨.quit, some "n", 5⟩)
      [tTest "T0", tTest "T1", tTest "T2"] =
      [⟨"T0", "name T0", "cat", "not_run", 5, some "n", "manual"⟩,
       ⟨"T1", "name T1", "cat", "not_run", 0, none, "manual"⟩,
       ⟨"T2", "name T2", "cat", "not_run", 0, none, "manual"⟩] := by
  have h := sessionResults_quit (fun _ => "manual") [] (fun _ => ⟨.quit, some "n", 5⟩)
    [tTest "T0", tTest "T1", tTest "T2"] 0 (by decide) (by decide) (by decide) rfl
    (fun i hi _ => absurd hi (Nat.not_lt_zero i))
  rw [h]
  rfl

end TermiHub
